import Mathlib

/-!
Verification of the shift-time simulation engine of the
"Calculadora de Jornada CLT" application (`src/app.py`).

The engine consists of
* a night classifier (`is_night_time`, from the inline checks in the code),
* a forward simulator `calculate_exit_time` that walks a virtual clock
  minute by minute until a target number of effective minutes is reached,
  inserting a single meal break once 240 effective minutes have accrued, and
* a reverse simulator `calculate_short_friday_net_minutes` that walks from a
  fixed entry to a fixed exit and reports the accumulated effective minutes,
  inserting the break once 240 real minutes have elapsed.

Modelling conventions: Python `datetime` values anchored at the fixed base
date are represented by their absolute minute count since the anchor
midnight (a `Nat`); `datetime.time` values by a `Clock` record; the Python
float accumulator by an exact rational (`ℚ`); the Python ints `intervalo_minutos`
by `ℤ` (so that out-of-domain negative inputs are representable).  The
minute loops, which Python bounds by their own stop conditions, are modelled
with a fuel parameter chosen large enough that the fuel never runs out
(proved below: every final state satisfies the loop's own exit condition).
-/

namespace CLT

/-- The constant `FATOR_HORA_NOTURNA = 60 / 52.5` from the code: each real
minute inside the night window counts as this many effective minutes. -/
def FATOR_HORA_NOTURNA : ℚ := 60 / 52.5

/-- Night window start hour (inclusive), `INICIO_NOITE = 22` in the code. -/
def INICIO_NOITE : Nat := 22

/-- Night window end hour (exclusive), `FIM_NOITE = 5` in the code. -/
def FIM_NOITE : Nat := 5

/-- Wall-clock time of day, the model of a Python `datetime.time` value. -/
structure Clock where
  hour : Nat
  minute : Nat
deriving DecidableEq

/-- Minutes since the anchor midnight, the model of `time_to_datetime`
(which anchors a `time` to the fixed base date 2023-01-01). -/
def Clock.abs (t : Clock) : Nat := t.hour * 60 + t.minute

/-- A clock value whose components are in range (hour 0-23, minute 0-59);
this is what `parse_input_to_time` guarantees before the core is called. -/
def ValidClock (t : Clock) : Prop := t.hour < 24 ∧ t.minute < 60

instance (t : Clock) : Decidable (ValidClock t) := by
  unfold ValidClock; infer_instance

/-- Hour of day of an absolute minute count, the model of `current_dt.hour`. -/
def hourOf (m : Nat) : Nat := (m / 60) % 24

/-- The night classifier: `is_night_start or is_night_end` in the code,
i.e. `hour >= INICIO_NOITE or hour < FIM_NOITE`. -/
def is_night_time (h : Nat) : Bool :=
  decide (INICIO_NOITE ≤ h) || decide (h < FIM_NOITE)

/-- Effective-minute weight of one real minute at hour `h`:
`FATOR_HORA_NOTURNA` in the night window, `1` otherwise (step 4 of the
forward loop and the identical step of the reverse loop). -/
def rate (h : Nat) : ℚ := if is_night_time h then FATOR_HORA_NOTURNA else 1

/-- Two-digit zero-padded rendering of a hour/minute component
(`strftime("%H:%M")` pieces). -/
def pad2 (n : Nat) : String := if n < 10 then "0" ++ toString n else toString n

/-- The model of `current_dt.strftime("%H:%M")` on an absolute minute count. -/
def clockStr (m : Nat) : String := pad2 (hourOf m) ++ ":" ++ pad2 (m % 60)

/-- Python `f"{i:02d}"` on an integer (negative values keep their sign and
are not padded beyond width two, exactly as in Python). -/
def fmtI2 (i : ℤ) : String :=
  if 0 ≤ i ∧ i < 10 then "0" ++ toString i else toString i

/-- Python `int(...)` applied to an exact rational: truncation toward zero. -/
def ratTrunc (q : ℚ) : ℤ := Int.tdiv q.num q.den

/-- The model of `format_timedelta(timedelta(minutes=mins))`: total seconds
truncated to an integer, then Python floor-divmod by 3600 and 60, rendered
as `"HHh MMm"`. -/
def format_timedelta (mins : ℚ) : String :=
  let ts : ℤ := ratTrunc (mins * 60)
  let hours : ℤ := Int.fdiv ts 3600
  let remainder : ℤ := Int.fmod ts 3600
  let minutes : ℤ := Int.fdiv remainder 60
  fmtI2 hours ++ "h " ++ fmtI2 minutes ++ "m"

/-- State of the forward simulation loop of `calculate_exit_time`:
the virtual clock `current` (minutes since the anchor midnight, the model of
`current_dt`), the counters `real_minutes_worked` and
`effective_minutes_worked`, and `intervalo_start` (the model of
`intervalo_start_dt`, `none` while no break has been inserted). -/
structure FwdState where
  current : Nat
  real : Nat
  eff : ℚ
  intervalo_start : Option Nat
deriving DecidableEq

/-- One-to-one model of the `while effective_minutes_worked < jornada` loop
of `calculate_exit_time` (lines 87-120 of `app.py`): while the target is not
reached, stop if more than 2000 real minutes have been simulated; insert the
break (advancing the clock by the break length without earning effective
minutes) at the first iteration where 240 effective minutes have accrued,
provided the break length is positive and no break was inserted yet;
otherwise credit one minute at the current hour's rate and advance one
minute.  The fuel argument only guarantees termination of the Lean model;
`fwdSim` supplies enough fuel that it never runs out. -/
def fwdLoop (intervalo : ℤ) (target : ℚ) : Nat → FwdState → FwdState
  | 0, s => s
  | fuel + 1, s =>
    if s.eff < target then
      if 2000 < s.real then s
      else if 240 ≤ s.eff ∧ s.intervalo_start = none ∧ 0 < intervalo then
        fwdLoop intervalo target fuel
          ⟨s.current + intervalo.toNat, s.real + intervalo.toNat, s.eff,
            some s.current⟩
      else
        fwdLoop intervalo target fuel
          ⟨s.current + 1, s.real + 1, s.eff + rate (hourOf s.current),
            s.intervalo_start⟩
    else s

/-- The forward simulation from an entry instant: loop started on the state
`(t_entrada, 0, 0.0, None)`. -/
def fwdSim (e : Nat) (intervalo : ℤ) (target : ℚ) : FwdState :=
  fwdLoop intervalo target 2002 ⟨e, 0, 0, none⟩

/-- The value returned by `calculate_exit_time`: the three strings
`(saida_str, intervalo_str, jornada_liquida_formatada)`. -/
structure ExitResult where
  saida : String
  intervalo : String
  jornada : String
deriving DecidableEq

/-- The model of `calculate_exit_time(entrada, intervalo_minutos,
jornada_diaria_minutos)` (lines 65-146 of `app.py`): run the forward
simulation, then format the exit instant (appending `" (+1D)"` when the exit
datetime compares below the entry datetime), the break window (appending
`" (+1D)"` to its end when the end datetime compares below its start), and
the requested net duration. -/
def calculate_exit_time (entrada : Clock) (intervalo_minutos : ℤ)
    (jornada_diaria_minutos : ℚ) : ExitResult :=
  let t_entrada := entrada.abs
  let f := fwdSim t_entrada intervalo_minutos jornada_diaria_minutos
  let saida_str :=
    if f.current < t_entrada then clockStr f.current ++ " (+1D)"
    else clockStr f.current
  let intervalo_str :=
    match f.intervalo_start with
    | some b =>
      let fim := b + intervalo_minutos.toNat
      let fimStr := if fim < b then clockStr fim ++ " (+1D)" else clockStr fim
      clockStr b ++ " - " ++ fimStr ++ " (" ++
        format_timedelta (intervalo_minutos : ℚ) ++ ")"
    | none => format_timedelta (intervalo_minutos : ℚ)
  ⟨saida_str, intervalo_str, format_timedelta jornada_diaria_minutos⟩

/-- State of the reverse simulation loop of
`calculate_short_friday_net_minutes`: virtual clock, real and effective
minute counters, and the `intervalo_applied` flag. -/
structure RevState where
  current : Nat
  real : Nat
  eff : ℚ
  intervalo_applied : Bool
deriving DecidableEq

/-- One-to-one model of the `while current_dt < t_saida` loop of
`calculate_short_friday_net_minutes` (lines 171-193 of `app.py`): while the
fixed exit has not been reached, insert the break once 240 real minutes have
elapsed (if positive and not yet applied), stop if that moved the clock to
or past the exit, otherwise credit one minute at the current hour's rate and
advance one minute.  The code's two consecutive `current_dt >= t_saida`
checks collapse to the single check on the post-insertion state `s1`: when
no break is inserted the loop condition already gives `current < S`. -/
def revLoop (S : Nat) (intervalo : ℤ) : Nat → RevState → RevState
  | 0, s => s
  | fuel + 1, s =>
    if s.current < S then
      let s1 : RevState :=
        if 240 ≤ s.real ∧ s.intervalo_applied = false ∧ 0 < intervalo then
          ⟨s.current + intervalo.toNat, s.real + intervalo.toNat, s.eff, true⟩
        else s
      if S ≤ s1.current then s1
      else
        revLoop S intervalo fuel
          ⟨s1.current + 1, s1.real + 1, s1.eff + rate (hourOf s1.current),
            s1.intervalo_applied⟩
    else s

/-- The absolute exit instant used by the reverse simulator: if the exit
time is at or before the entry time, it lies on the next day
(`t_saida += timedelta(days=1)`). -/
def revS (entrada saida : Clock) : Nat :=
  if saida.abs ≤ entrada.abs then saida.abs + 1440 else saida.abs

/-- The model of `calculate_short_friday_net_minutes(entrada, saida,
intervalo_minutos)` (lines 152-195 of `app.py`): run the reverse walk from
the entry to the (possibly next-day) exit and return the effective-minute
accumulator. -/
def calculate_short_friday_net_minutes (entrada saida : Clock)
    (intervalo_minutos : ℤ) : ℚ :=
  (revLoop (revS entrada saida) intervalo_minutos 3000
    ⟨entrada.abs, 0, 0, false⟩).eff

/-- Effective minutes earned by walking `n` break-free minutes starting at
absolute minute `a`: the closed segment sum the loops accumulate. -/
def effSegLen (a : Nat) : Nat → ℚ
  | 0 => 0
  | n + 1 => effSegLen a n + rate (hourOf (a + n))

/-- Bounded search for the first walk length at which the effective
accumulator of a break-free walk from `a` reaches 240. -/
def brkSearch (a : Nat) : Nat → Nat → Nat
  | 0, j => j
  | fuel + 1, j => if 240 ≤ effSegLen a j then j else brkSearch a fuel (j + 1)

/-- The first walk length at which a break-free walk from `a` has
accumulated at least 240 effective minutes (the forward simulator's
break-insertion instant, measured in real minutes after the entry). -/
def brkIdx (a : Nat) : Nat := brkSearch a 241 0

/-- Clock time of day of an absolute minute count (how a caller reads the
simulated exit instant back into a `time` value). -/
def clockOfAbs (m : Nat) : Clock := ⟨hourOf m, m % 60⟩

end CLT

namespace CLT

theorem FATOR_eq : FATOR_HORA_NOTURNA = 8 / 7 := by
  norm_num [FATOR_HORA_NOTURNA]

theorem one_le_rate (h : Nat) : 1 ≤ rate h := by
  unfold rate
  split
  · rw [FATOR_eq]; norm_num
  · exact le_refl 1

theorem rate_nonneg (h : Nat) : 0 ≤ rate h :=
  le_trans zero_le_one (one_le_rate h)

theorem rate_le_FATOR (h : Nat) : rate h ≤ FATOR_HORA_NOTURNA := by
  unfold rate
  split
  · exact le_refl _
  · rw [FATOR_eq]; norm_num

theorem rate_day {h : Nat} (hh : is_night_time h = false) : rate h = 1 := by
  unfold rate
  rw [hh]
  simp

theorem rate_night {h : Nat} (hh : is_night_time h = true) :
    rate h = FATOR_HORA_NOTURNA := by
  unfold rate
  rw [hh]
  simp

theorem day_hour {m : Nat} (h1 : 300 ≤ m % 1440) (h2 : m % 1440 < 1320) :
    is_night_time (hourOf m) = false := by
  simp only [is_night_time, INICIO_NOITE, FIM_NOITE, hourOf,
    Bool.or_eq_false_iff, decide_eq_false_iff_not, not_lt, not_le]
  omega

theorem night_hour {m : Nat} (h : m % 1440 < 300 ∨ 1320 ≤ m % 1440) :
    is_night_time (hourOf m) = true := by
  simp only [is_night_time, INICIO_NOITE, FIM_NOITE, hourOf,
    Bool.or_eq_true, decide_eq_true_eq]
  omega

theorem hourOf_clock (t : Clock) (ht : ValidClock t) : hourOf t.abs = t.hour := by
  obtain ⟨hh, hm⟩ := ht
  simp only [hourOf, Clock.abs]
  omega

theorem effSegLen_zero (a : Nat) : effSegLen a 0 = 0 := rfl

theorem effSegLen_succ (a n : Nat) :
    effSegLen a (n + 1) = effSegLen a n + rate (hourOf (a + n)) := rfl

theorem effSegLen_succ_front (a n : Nat) :
    effSegLen a (n + 1) = rate (hourOf a) + effSegLen (a + 1) n := by
  induction n with
  | zero => simp [effSegLen]
  | succ n ih =>
    rw [effSegLen_succ, ih, effSegLen_succ]
    have : a + 1 + n = a + (n + 1) := by omega
    rw [this]
    ring

theorem le_effSegLen (a n : Nat) : (n : ℚ) ≤ effSegLen a n := by
  induction n with
  | zero => simp [effSegLen]
  | succ n ih =>
    rw [effSegLen_succ]
    push_cast
    have := one_le_rate (hourOf (a + n))
    linarith

theorem effSegLen_le (a n : Nat) :
    effSegLen a n ≤ (n : ℚ) * FATOR_HORA_NOTURNA := by
  induction n with
  | zero => simp [effSegLen]
  | succ n ih =>
    rw [effSegLen_succ]
    push_cast
    have := rate_le_FATOR (hourOf (a + n))
    linarith

theorem effSegLen_mono (a : Nat) {m n : Nat} (h : m ≤ n) :
    effSegLen a m ≤ effSegLen a n := by
  induction n, h using Nat.le_induction with
  | base => exact le_refl _
  | succ n hmn ih =>
    rw [effSegLen_succ]
    have := rate_nonneg (hourOf (a + n))
    linarith

theorem effSegLen_append (a m n : Nat) :
    effSegLen a (m + n) = effSegLen a m + effSegLen (a + m) n := by
  induction n with
  | zero => simp [effSegLen]
  | succ n ih =>
    have : m + (n + 1) = (m + n) + 1 := by omega
    rw [this, effSegLen_succ, ih, effSegLen_succ]
    have : a + m + n = a + (m + n) := by omega
    rw [this]
    ring

theorem daySum (a n : Nat) (h : ∀ j < n, is_night_time (hourOf (a + j)) = false) :
    effSegLen a n = n := by
  induction n with
  | zero => simp [effSegLen]
  | succ n ih =>
    rw [effSegLen_succ, rate_day (h n (Nat.lt_succ_self n)),
      ih (fun j hj => h j (Nat.lt_succ_of_lt hj))]
    push_cast
    ring

theorem nightSum (a n : Nat)
    (h : ∀ j < n, is_night_time (hourOf (a + j)) = true) :
    effSegLen a n = (n : ℚ) * FATOR_HORA_NOTURNA := by
  induction n with
  | zero => simp [effSegLen]
  | succ n ih =>
    rw [effSegLen_succ, rate_night (h n (Nat.lt_succ_self n)),
      ih (fun j hj => h j (Nat.lt_succ_of_lt hj))]
    push_cast
    ring

end CLT

namespace CLT

theorem fwdLoop_current_le (i : ℤ) (T : ℚ) :
    ∀ (fuel : Nat) (s : FwdState), s.current ≤ (fwdLoop i T fuel s).current := by
  intro fuel
  induction fuel with
  | zero => intro s; exact le_refl _
  | succ fuel ih =>
    intro s
    rw [fwdLoop]
    split
    · split
      · exact le_refl _
      · split
        · exact le_trans (Nat.le_add_right _ _)
            (ih ⟨s.current + i.toNat, s.real + i.toNat, s.eff, some s.current⟩)
        · exact le_trans (Nat.le_add_right _ 1)
            (ih ⟨s.current + 1, s.real + 1, s.eff + rate (hourOf s.current),
              s.intervalo_start⟩)
    · exact le_refl _

theorem fwdLoop_some_preserved (i : ℤ) (T : ℚ) :
    ∀ (fuel : Nat) (s : FwdState) (b : Nat), s.intervalo_start = some b →
      (fwdLoop i T fuel s).intervalo_start = some b := by
  intro fuel
  induction fuel with
  | zero => intro s b hb; exact hb
  | succ fuel ih =>
    intro s b hb
    rw [fwdLoop]
    split
    · split
      · exact hb
      · split
        · rename_i hcond
          exact absurd hb (by rw [hcond.2.1]; simp)
        · exact ih _ b hb
    · exact hb

theorem fwdLoop_none_preserved (i : ℤ) (T : ℚ) (hi : ¬0 < i) :
    ∀ (fuel : Nat) (s : FwdState), s.intervalo_start = none →
      (fwdLoop i T fuel s).intervalo_start = none := by
  intro fuel
  induction fuel with
  | zero => intro s hb; exact hb
  | succ fuel ih =>
    intro s hb
    rw [fwdLoop]
    split
    · split
      · exact hb
      · split
        · rename_i hcond
          exact absurd hcond.2.2 hi
        · exact ih _ hb
    · exact hb

end CLT

namespace CLT

theorem fwdLoop_noinsert (i : ℤ) (T : ℚ) :
    ∀ (M : Nat) (c r : Nat) (q : ℚ) (brk : Option Nat) (fuel : Nat),
      (brk ≠ none ∨ ¬0 < i) →
      (∀ m, m < M → q + effSegLen c m < T ∧ r + m ≤ 2000) →
      (T ≤ q + effSegLen c M ∨ 2000 < r + M) →
      M < fuel →
      fwdLoop i T fuel ⟨c, r, q, brk⟩ = ⟨c + M, r + M, q + effSegLen c M, brk⟩ := by
  intro M
  induction M with
  | zero =>
    intro c r q brk fuel hni hrun hstop hfuel
    obtain ⟨fuel, rfl⟩ : ∃ f, fuel = f + 1 := ⟨fuel - 1, by omega⟩
    have hz : q + effSegLen c 0 = q := by rw [effSegLen_zero, add_zero]
    rw [fwdLoop]
    dsimp only
    by_cases hq : q < T
    · rcases hstop with hT | hr
      · rw [hz] at hT; exact absurd hq (not_lt.mpr hT)
      · rw [if_pos hq, if_pos (by omega : 2000 < r)]
        rw [hz]
        simp
    · rw [if_neg hq, hz]
      simp
  | succ M ih =>
    intro c r q brk fuel hni hrun hstop hfuel
    obtain ⟨fuel, rfl⟩ : ∃ f, fuel = f + 1 := ⟨fuel - 1, by omega⟩
    have h0 := hrun 0 (Nat.succ_pos M)
    have hq : q < T := by
      have := h0.1; rwa [effSegLen_zero, add_zero] at this
    have hr2000 : ¬2000 < r := by omega
    have hcond : ¬(240 ≤ (q:ℚ) ∧ (brk = none) ∧ 0 < i) := by
      rcases hni with hb | hi
      · intro hc; exact hb hc.2.1
      · intro hc; exact hi hc.2.2
    rw [fwdLoop]
    dsimp only
    rw [if_pos hq, if_neg hr2000, if_neg hcond]
    have step := ih (c + 1) (r + 1) (q + rate (hourOf c)) brk fuel hni
      (fun m hm => by
        have h1 := hrun (m + 1) (by omega)
        constructor
        · have := h1.1
          rwa [effSegLen_succ_front, ← add_assoc] at this
        · omega)
      (by
        rcases hstop with hT | hr
        · left
          rwa [effSegLen_succ_front, ← add_assoc] at hT
        · right; omega)
      (by omega)
    rw [step]
    have hc : c + 1 + M = c + (M + 1) := by omega
    have hr : r + 1 + M = r + (M + 1) := by omega
    have he : q + rate (hourOf c) + effSegLen (c + 1) M = q + effSegLen c (M + 1) := by
      rw [effSegLen_succ_front, ← add_assoc]
    rw [hc, hr, he]

end CLT

namespace CLT

theorem fwdLoop_with_insert (i : ℤ) (T : ℚ) :
    ∀ (K : Nat) (c r : Nat) (q : ℚ) (M : Nat) (fuel : Nat),
      0 < i →
      (∀ m, m < K → q + effSegLen c m < 240) →
      (∀ m, m ≤ K → q + effSegLen c m < T) →
      (∀ m, m ≤ K → r + m ≤ 2000) →
      240 ≤ q + effSegLen c K →
      (∀ m, m < M →
        q + effSegLen c K + effSegLen (c + K + i.toNat) m < T ∧
        r + K + i.toNat + m ≤ 2000) →
      (T ≤ q + effSegLen c K + effSegLen (c + K + i.toNat) M ∨
        2000 < r + K + i.toNat + M) →
      K + M + 1 < fuel →
      fwdLoop i T fuel ⟨c, r, q, none⟩ =
        ⟨c + K + i.toNat + M, r + K + i.toNat + M,
          q + effSegLen c K + effSegLen (c + K + i.toNat) M, some (c + K)⟩ := by
  intro K
  induction K with
  | zero =>
    intro c r q M fuel hi hK1 hK2 hK3 h240 hpost hstop hfuel
    obtain ⟨fuel, rfl⟩ : ∃ f, fuel = f + 1 := ⟨fuel - 1, by omega⟩
    have hz : ∀ x : ℚ, x + effSegLen c 0 = x := fun x => by
      rw [effSegLen_zero, add_zero]
    have hq : q < T := by have := hK2 0 (le_refl 0); rwa [hz] at this
    have hr2000 : ¬2000 < r := by have := hK3 0 (le_refl 0); omega
    have h240q : (240 : ℚ) ≤ q := by rwa [hz] at h240
    rw [fwdLoop]
    dsimp only
    rw [if_pos hq, if_neg hr2000, if_pos ⟨h240q, rfl, hi⟩]
    have step := fwdLoop_noinsert i T M (c + i.toNat) (r + i.toNat) q
      (some c) fuel (Or.inl (by simp))
      (fun m hm => by
        have h1 := hpost m hm
        constructor
        · have := h1.1
          rwa [hz, Nat.add_zero c] at this
        · omega)
      (by
        rcases hstop with hT | hr
        · left
          rwa [hz, Nat.add_zero c] at hT
        · right; omega)
      (by omega)
    rw [step]
    rw [hz]
    have h1 : c + i.toNat + M = c + 0 + i.toNat + M := by omega
    have h2 : r + i.toNat + M = r + 0 + i.toNat + M := by omega
    have h3 : c + i.toNat = c + 0 + i.toNat := by omega
    have h4 : c = c + 0 := by omega
    rw [← h1, ← h2, ← h3, ← h4]
  | succ K ih =>
    intro c r q M fuel hi hK1 hK2 hK3 h240 hpost hstop hfuel
    obtain ⟨fuel, rfl⟩ : ∃ f, fuel = f + 1 := ⟨fuel - 1, by omega⟩
    have hz : ∀ x : ℚ, x + effSegLen c 0 = x := fun x => by
      rw [effSegLen_zero, add_zero]
    have hq : q < T := by have := hK2 0 (Nat.zero_le _); rwa [hz] at this
    have hr2000 : ¬2000 < r := by have := hK3 0 (Nat.zero_le _); omega
    have hq240 : ¬(240 : ℚ) ≤ q := by
      have := hK1 0 (Nat.succ_pos K); rw [hz] at this; exact not_le.mpr this
    have hcond : ¬((240 : ℚ) ≤ q ∧ (none : Option Nat) = none ∧ 0 < i) :=
      fun hc => hq240 hc.1
    rw [fwdLoop]
    dsimp only
    rw [if_pos hq, if_neg hr2000, if_neg hcond]
    have front : ∀ m : Nat, q + effSegLen c (m + 1)
        = q + rate (hourOf c) + effSegLen (c + 1) m := fun m => by
      rw [effSegLen_succ_front, ← add_assoc]
    have step := ih (c + 1) (r + 1) (q + rate (hourOf c)) M fuel hi
      (fun m hm => by have := hK1 (m + 1) (by omega); rwa [front] at this)
      (fun m hm => by have := hK2 (m + 1) (by omega); rwa [front] at this)
      (fun m hm => by have := hK3 (m + 1) (by omega); omega)
      (by have := h240; rwa [front] at this)
      (fun m hm => by
        have h1 := hpost m hm
        constructor
        · have := h1.1
          rw [front] at this
          have harr : c + (K + 1) + i.toNat = c + 1 + K + i.toNat := by omega
          rwa [harr] at this
        · omega)
      (by
        rcases hstop with hT | hr
        · left
          rw [front] at hT
          have harr : c + (K + 1) + i.toNat = c + 1 + K + i.toNat := by omega
          rwa [harr] at hT
        · right; omega)
      (by omega)
    rw [step]
    have h1 : c + 1 + K + i.toNat + M = c + (K + 1) + i.toNat + M := by omega
    have h2 : r + 1 + K + i.toNat + M = r + (K + 1) + i.toNat + M := by omega
    have h3 : c + 1 + K + i.toNat = c + (K + 1) + i.toNat := by omega
    have h4 : c + 1 + K = c + (K + 1) := by omega
    rw [h1, h2, h3, h4, ← front]

end CLT

namespace CLT

theorem fwdLoop_reach_insert (i : ℤ) (T : ℚ) :
    ∀ (K : Nat) (c r : Nat) (q : ℚ) (fuel : Nat),
      0 < i →
      (∀ m, m < K → q + effSegLen c m < 240) →
      (∀ m, m ≤ K → q + effSegLen c m < T) →
      (∀ m, m ≤ K → r + m ≤ 2000) →
      240 ≤ q + effSegLen c K →
      K < fuel →
      (fwdLoop i T fuel ⟨c, r, q, none⟩).intervalo_start = some (c + K) := by
  intro K
  induction K with
  | zero =>
    intro c r q fuel hi hK1 hK2 hK3 h240 hfuel
    obtain ⟨fuel, rfl⟩ : ∃ f, fuel = f + 1 := ⟨fuel - 1, by omega⟩
    have hz : ∀ x : ℚ, x + effSegLen c 0 = x := fun x => by
      rw [effSegLen_zero, add_zero]
    have hq : q < T := by have := hK2 0 (le_refl 0); rwa [hz] at this
    have hr2000 : ¬2000 < r := by have := hK3 0 (le_refl 0); omega
    have h240q : (240 : ℚ) ≤ q := by rwa [hz] at h240
    rw [fwdLoop]
    dsimp only
    rw [if_pos hq, if_neg hr2000, if_pos ⟨h240q, rfl, hi⟩]
    rw [fwdLoop_some_preserved i T fuel _ c rfl]
    rw [Nat.add_zero]
  | succ K ih =>
    intro c r q fuel hi hK1 hK2 hK3 h240 hfuel
    obtain ⟨fuel, rfl⟩ : ∃ f, fuel = f + 1 := ⟨fuel - 1, by omega⟩
    have hz : ∀ x : ℚ, x + effSegLen c 0 = x := fun x => by
      rw [effSegLen_zero, add_zero]
    have hq : q < T := by have := hK2 0 (Nat.zero_le _); rwa [hz] at this
    have hr2000 : ¬2000 < r := by have := hK3 0 (Nat.zero_le _); omega
    have hq240 : ¬(240 : ℚ) ≤ q := by
      have := hK1 0 (Nat.succ_pos K); rw [hz] at this; exact not_le.mpr this
    have hcond : ¬((240 : ℚ) ≤ q ∧ (none : Option Nat) = none ∧ 0 < i) :=
      fun hc => hq240 hc.1
    rw [fwdLoop]
    dsimp only
    rw [if_pos hq, if_neg hr2000, if_neg hcond]
    have front : ∀ m : Nat, q + effSegLen c (m + 1)
        = q + rate (hourOf c) + effSegLen (c + 1) m := fun m => by
      rw [effSegLen_succ_front, ← add_assoc]
    have step := ih (c + 1) (r + 1) (q + rate (hourOf c)) fuel hi
      (fun m hm => by have := hK1 (m + 1) (by omega); rwa [front] at this)
      (fun m hm => by have := hK2 (m + 1) (by omega); rwa [front] at this)
      (fun m hm => by have := hK3 (m + 1) (by omega); omega)
      (by have := h240; rwa [front] at this)
      (by omega)
    rw [step]
    have h4 : c + 1 + K = c + (K + 1) := by omega
    rw [h4]

theorem fwdLoop_no_insert_small (i : ℤ) (T : ℚ) :
    ∀ (fuel : Nat) (c r : Nat) (q : ℚ),
      (∀ m, q + effSegLen c m < T → q + effSegLen c m < 240) →
      (fwdLoop i T fuel ⟨c, r, q, none⟩).intervalo_start = none := by
  intro fuel
  induction fuel with
  | zero => intro c r q hTK; rfl
  | succ fuel ih =>
    intro c r q hTK
    have hz : ∀ x : ℚ, x + effSegLen c 0 = x := fun x => by
      rw [effSegLen_zero, add_zero]
    rw [fwdLoop]
    dsimp only
    by_cases hq : q < T
    · rw [if_pos hq]
      by_cases hr : 2000 < r
      · rw [if_pos hr]
      · rw [if_neg hr]
        have hq240 : ¬(240 : ℚ) ≤ q := by
          have := hTK 0 (by rwa [hz])
          rw [hz] at this
          exact not_le.mpr this
        rw [if_neg (fun hc => hq240 hc.1)]
        apply ih
        intro m hm
        have front : ∀ m : Nat, q + effSegLen c (m + 1)
            = q + rate (hourOf c) + effSegLen (c + 1) m := fun m => by
          rw [effSegLen_succ_front, ← add_assoc]
        have := hTK (m + 1) (by rwa [front])
        rwa [front] at this
    · rw [if_neg hq]

theorem fwdLoop_exit_cond (i : ℤ) (T : ℚ) :
    ∀ (fuel : Nat) (s : FwdState), 2001 ≤ fuel + s.real →
      T ≤ (fwdLoop i T fuel s).eff ∨ 2000 < (fwdLoop i T fuel s).real := by
  intro fuel
  induction fuel with
  | zero => intro s hf; right; simpa [fwdLoop] using (by omega : 2000 < s.real)
  | succ fuel ih =>
    intro s hf
    rw [fwdLoop]
    split
    · split
      · right; assumption
      · split
        · rename_i hcond
          refine ih _ ?_
          have h1 : (1 : Nat) ≤ i.toNat := by
            have := hcond.2.2
            omega
          dsimp only
          omega
        · refine ih _ ?_
          dsimp only
          omega
    · left; exact not_lt.mp (by assumption)

theorem fwdLoop_mono_target (i : ℤ) {T1 T2 : ℚ} (hT : T1 ≤ T2) :
    ∀ (fuel : Nat) (s : FwdState),
      (fwdLoop i T1 fuel s).current ≤ (fwdLoop i T2 fuel s).current := by
  intro fuel
  induction fuel with
  | zero => intro s; exact le_refl _
  | succ fuel ih =>
    intro s
    by_cases h1 : s.eff < T1
    · have h2 : s.eff < T2 := lt_of_lt_of_le h1 hT
      rw [fwdLoop, fwdLoop, if_pos h1, if_pos h2]
      by_cases hr : 2000 < s.real
      · rw [if_pos hr, if_pos hr]
      · rw [if_neg hr, if_neg hr]
        by_cases hc : 240 ≤ s.eff ∧ s.intervalo_start = none ∧ 0 < i
        · rw [if_pos hc, if_pos hc]
          exact ih _
        · rw [if_neg hc, if_neg hc]
          exact ih _
    · conv_lhs => rw [fwdLoop, if_neg h1]
      exact fwdLoop_current_le i T2 (fuel + 1) s

end CLT

namespace CLT

theorem brkSearch_le (a : Nat) :
    ∀ (fuel j : Nat), j ≤ brkSearch a fuel j := by
  intro fuel
  induction fuel with
  | zero => intro j; exact le_refl j
  | succ fuel ih =>
    intro j
    rw [brkSearch]
    split
    · exact le_refl j
    · exact le_trans (Nat.le_succ j) (ih (j + 1))

theorem brkSearch_pred (a : Nat) :
    ∀ (fuel j : Nat), 240 ≤ effSegLen a (j + fuel) →
      240 ≤ effSegLen a (brkSearch a fuel j) := by
  intro fuel
  induction fuel with
  | zero => intro j h; simpa [brkSearch] using h
  | succ fuel ih =>
    intro j h
    rw [brkSearch]
    split
    · assumption
    · refine ih (j + 1) ?_
      have hidx : j + 1 + fuel = j + (fuel + 1) := by omega
      rw [hidx]
      exact h

theorem brkSearch_min (a : Nat) :
    ∀ (fuel j m : Nat), j ≤ m → m < brkSearch a fuel j →
      effSegLen a m < 240 := by
  intro fuel
  induction fuel with
  | zero => intro j m hjm hm; rw [brkSearch] at hm; omega
  | succ fuel ih =>
    intro j m hjm hm
    rw [brkSearch] at hm
    split at hm
    · omega
    · rcases Nat.eq_or_lt_of_le hjm with rfl | hlt
      · rename_i hpred
        exact not_le.mp hpred
      · exact ih (j + 1) m hlt hm

theorem brkIdx_spec (a : Nat) : 240 ≤ effSegLen a (brkIdx a) := by
  apply brkSearch_pred
  calc (240 : ℚ) ≤ ((0 + 241 : Nat) : ℚ) := by norm_num
    _ ≤ effSegLen a (0 + 241) := le_effSegLen a _

theorem brkIdx_min (a : Nat) : ∀ m, m < brkIdx a → effSegLen a m < 240 := by
  intro m hm
  exact brkSearch_min a 241 0 m (Nat.zero_le m) hm

theorem brkIdx_le_240 (a : Nat) : brkIdx a ≤ 240 := by
  by_contra h
  have h240 : effSegLen a 240 < 240 := brkIdx_min a 240 (by omega)
  have : (240 : ℚ) ≤ effSegLen a 240 := by
    calc (240 : ℚ) = ((240 : Nat) : ℚ) := by norm_num
      _ ≤ effSegLen a 240 := le_effSegLen a 240
  linarith

theorem revLoop_noinsert (S : Nat) (i : ℤ) :
    ∀ (fuel : Nat) (c r : Nat) (q : ℚ) (a : Bool),
      (a = true ∨ ¬0 < i) → c ≤ S → S ≤ c + fuel →
      (revLoop S i fuel ⟨c, r, q, a⟩).eff = q + effSegLen c (S - c) := by
  intro fuel
  induction fuel with
  | zero =>
    intro c r q a ha hc hf
    have : S - c = 0 := by omega
    rw [revLoop, this, effSegLen_zero, add_zero]
  | succ fuel ih =>
    intro c r q a ha hc hf
    rw [revLoop]
    dsimp only
    by_cases hlt : c < S
    · rw [if_pos hlt]
      have hcond : ¬(240 ≤ r ∧ a = false ∧ 0 < i) := by
        rcases ha with rfl | hi
        · intro hcon; exact absurd hcon.2.1 (by decide)
        · intro hcon; exact hi hcon.2.2
      rw [if_neg hcond]
      rw [if_neg (not_le.mpr hlt)]
      rw [ih (c + 1) (r + 1) (q + rate (hourOf c)) a ha (by omega) (by omega)]
      have hsub : S - c = (S - (c + 1)) + 1 := by omega
      rw [hsub, effSegLen_succ_front, ← add_assoc]
    · rw [if_neg hlt]
      have : S - c = 0 := by omega
      rw [this, effSegLen_zero, add_zero]

theorem revLoop_exit_cond (S : Nat) (i : ℤ) :
    ∀ (fuel : Nat) (s : RevState), S ≤ s.current + fuel →
      S ≤ (revLoop S i fuel s).current := by
  intro fuel
  induction fuel with
  | zero => intro s hf; rw [revLoop]; omega
  | succ fuel ih =>
    intro s hf
    rw [revLoop]
    dsimp only
    by_cases hlt : s.current < S
    · rw [if_pos hlt]
      split
      · split
        · assumption
        · rename_i hcur
          refine ih _ ?_
          dsimp only
          omega
      · split
        · assumption
        · refine ih _ ?_
          dsimp only
          omega
    · rw [if_neg hlt]
      omega

theorem revLoop_insert (S : Nat) (i : ℤ) (hi : 0 < i) :
    ∀ (K c r : Nat) (q : ℚ) (fuel : Nat),
      r + K = 240 → c + K < S → S ≤ c + fuel →
      (revLoop S i fuel ⟨c, r, q, false⟩).eff =
        q + effSegLen c K +
          effSegLen (c + K + i.toNat) (S - (c + K + i.toNat)) := by
  intro K
  induction K with
  | zero =>
    intro c r q fuel hr hcS hfuel
    obtain ⟨fuel, rfl⟩ : ∃ f, fuel = f + 1 := ⟨fuel - 1, by omega⟩
    have hr240 : r = 240 := by omega
    subst hr240
    rw [revLoop]
    dsimp only
    rw [if_pos (by omega : c < S)]
    have hcond1 : 240 ≤ 240 ∧ (false : Bool) = false ∧ 0 < i :=
      ⟨le_refl 240, rfl, hi⟩
    rw [if_pos hcond1]
    dsimp only
    rw [effSegLen_zero, add_zero]
    simp only [Nat.add_zero]
    by_cases hS : S ≤ c + i.toNat
    · rw [if_pos hS]
      have : S - (c + i.toNat) = 0 := by omega
      rw [this, effSegLen_zero, add_zero]
    · rw [if_neg hS]
      rw [revLoop_noinsert S i fuel (c + i.toNat + 1) (240 + i.toNat + 1)
        (q + rate (hourOf (c + i.toNat))) true (Or.inl rfl) (by omega) (by omega)]
      have hsub : S - (c + i.toNat) = (S - (c + i.toNat + 1)) + 1 := by omega
      rw [hsub, effSegLen_succ_front, ← add_assoc]
  | succ K ih =>
    intro c r q fuel hr hcS hfuel
    obtain ⟨fuel, rfl⟩ : ∃ f, fuel = f + 1 := ⟨fuel - 1, by omega⟩
    rw [revLoop]
    dsimp only
    rw [if_pos (by omega : c < S)]
    rw [if_neg (by
      intro hcon
      omega : ¬(240 ≤ r ∧ (false : Bool) = false ∧ 0 < i))]
    rw [if_neg (by omega : ¬S ≤ c)]
    rw [ih (c + 1) (r + 1) (q + rate (hourOf c)) fuel (by omega) (by omega)
      (by omega)]
    have h1 : c + 1 + K = c + (K + 1) := by omega
    rw [h1, effSegLen_succ_front]
    ring

end CLT

namespace CLT

theorem daySumRange (a n : Nat)
    (h : ∀ j, j < n → 300 ≤ (a + j) % 1440 ∧ (a + j) % 1440 < 1320) :
    effSegLen a n = n :=
  daySum a n (fun j hj => day_hour (h j hj).1 (h j hj).2)

theorem nightSumRange (a n : Nat)
    (h : ∀ j, j < n → (a + j) % 1440 < 300 ∨ 1320 ≤ (a + j) % 1440) :
    effSegLen a n = (n : ℚ) * FATOR_HORA_NOTURNA :=
  nightSum a n (fun j hj => night_hour (h j hj))

theorem day_hour_inv {m : Nat} (h : is_night_time (hourOf m) = false) :
    300 ≤ m % 1440 ∧ m % 1440 < 1320 := by
  simp only [is_night_time, INICIO_NOITE, FIM_NOITE, hourOf,
    Bool.or_eq_false_iff, decide_eq_false_iff_not, not_lt, not_le] at h
  omega

theorem abs_lt_1440 {t : Clock} (ht : ValidClock t) : t.abs < 1440 := by
  obtain ⟨h1, h2⟩ := ht
  unfold Clock.abs
  omega

theorem clockOfAbs_abs {m : Nat} (h : m < 1440) : (clockOfAbs m).abs = m := by
  unfold clockOfAbs Clock.abs hourOf
  dsimp only
  omega

theorem clockOfAbs_valid (m : Nat) : ValidClock (clockOfAbs m) := by
  unfold clockOfAbs ValidClock hourOf
  constructor
  · exact Nat.mod_lt _ (by norm_num)
  · exact Nat.mod_lt _ (by norm_num)

theorem fwdSim_current_ge (e : Nat) (i : ℤ) (T : ℚ) :
    e ≤ (fwdSim e i T).current :=
  fwdLoop_current_le i T 2002 ⟨e, 0, 0, none⟩

theorem calculate_saida_eq (entrada : Clock) (i : ℤ) (T : ℚ) :
    (calculate_exit_time entrada i T).saida =
      clockStr ((fwdSim entrada.abs i T).current) := by
  unfold calculate_exit_time
  dsimp only
  rw [if_neg (not_lt.mpr (fwdSim_current_ge entrada.abs i T))]

theorem calculate_jornada_eq (entrada : Clock) (i : ℤ) (T : ℚ) :
    (calculate_exit_time entrada i T).jornada = format_timedelta T := rfl

theorem calculate_intervalo_none (entrada : Clock) (i : ℤ) (T : ℚ)
    (h : (fwdSim entrada.abs i T).intervalo_start = none) :
    (calculate_exit_time entrada i T).intervalo =
      format_timedelta (i : ℚ) := by
  unfold calculate_exit_time
  dsimp only
  rw [h]

theorem calculate_intervalo_some (entrada : Clock) (i : ℤ) (T : ℚ) (b : Nat)
    (h : (fwdSim entrada.abs i T).intervalo_start = some b) :
    (calculate_exit_time entrada i T).intervalo =
      clockStr b ++ " - " ++ clockStr (b + i.toNat) ++ " (" ++
        format_timedelta (i : ℚ) ++ ")" := by
  unfold calculate_exit_time
  dsimp only
  rw [h]
  dsimp only
  rw [if_neg (by omega : ¬b + i.toNat < b)]

end CLT

namespace CLT

theorem cast_int_60 : ((60 : ℤ) : ℚ) = 60 := by norm_num

theorem cast_int_0 : ((0 : ℤ) : ℚ) = 0 := by norm_num

unseal Rat.add Rat.mul Rat.inv Rat.sub Rat.ofScientific in
theorem format_timedelta_60 : format_timedelta 60 = "01h 00m" := by decide

unseal Rat.add Rat.mul Rat.inv Rat.sub Rat.ofScientific in
theorem format_timedelta_0 : format_timedelta 0 = "00h 00m" := by decide

unseal Rat.add Rat.mul Rat.inv Rat.sub Rat.ofScientific in
theorem format_timedelta_528 : format_timedelta 528 = "08h 48m" := by decide

unseal Rat.add Rat.mul Rat.inv Rat.sub Rat.ofScientific in
theorem format_timedelta_3000 : format_timedelta 3000 = "50h 00m" := by decide

unseal Rat.add Rat.mul Rat.inv Rat.sub Rat.ofScientific in
theorem format_timedelta_neg10 : format_timedelta (-10) = "-1h 50m" := by decide

theorem clockStr_1068 : clockStr 1068 = "17:48" := by decide

theorem clockStr_720 : clockStr 720 = "12:00" := by decide

theorem clockStr_780 : clockStr 780 = "13:00" := by decide

theorem clockStr_1489 : clockStr 1489 = "00:49" := by decide

theorem clockStr_480 : clockStr 480 = "08:00" := by decide

theorem clockStr_2481 : clockStr 2481 = "17:21" := by decide

theorem clockStr_1041 : clockStr 1041 = "17:21" := by decide

end CLT

namespace CLT

theorem revS_le (entrada saida : Clock) (hS : ValidClock saida) :
    revS entrada saida ≤ entrada.abs + 2880 := by
  have h1 := abs_lt_1440 hS
  unfold revS
  split <;> omega

theorem le_revS (entrada saida : Clock) (hE : ValidClock entrada) :
    entrada.abs ≤ revS entrada saida := by
  have h1 := abs_lt_1440 hE
  unfold revS
  split <;> omega

theorem rev_noinsert (entrada saida : Clock) (i : ℤ)
    (hE : ValidClock entrada) (hS : ValidClock saida) (hi : ¬0 < i) :
    calculate_short_friday_net_minutes entrada saida i =
      effSegLen entrada.abs (revS entrada saida - entrada.abs) := by
  unfold calculate_short_friday_net_minutes
  rw [revLoop_noinsert (revS entrada saida) i 3000 entrada.abs 0 0 false
    (Or.inr hi) (le_revS entrada saida hE)
    (by have := revS_le entrada saida hS; omega)]
  rw [zero_add]

theorem rev_insert_formula (entrada saida : Clock) (i : ℤ)
    (hS : ValidClock saida) (hi : 0 < i)
    (h240 : entrada.abs + 240 < revS entrada saida) :
    calculate_short_friday_net_minutes entrada saida i =
      effSegLen entrada.abs 240 +
        effSegLen (entrada.abs + 240 + i.toNat)
          (revS entrada saida - (entrada.abs + 240 + i.toNat)) := by
  unfold calculate_short_friday_net_minutes
  rw [revLoop_insert (revS entrada saida) i hi 240 entrada.abs 0 0 3000
    (by omega) h240 (by have := revS_le entrada saida hS; omega)]
  rw [zero_add]

end CLT

namespace CLT

theorem fwdSim_480_60_528 : fwdSim 480 60 528 = ⟨1068, 588, 528, some 720⟩ := by
  have hd1 : effSegLen 480 240 = 240 := by
    rw [daySumRange 480 240 (fun j hj => by omega)]
    norm_num
  have hd2 : effSegLen 780 288 = 288 := by
    rw [daySumRange 780 288 (fun j hj => by omega)]
    norm_num
  have haddr : 480 + 240 + (60 : ℤ).toNat = 780 := by decide
  have h := fwdLoop_with_insert 60 528 240 480 0 0 288 2002 (by norm_num)
    (fun m hm => by
      rw [zero_add, daySumRange 480 m (fun j hj => by omega)]
      exact_mod_cast hm)
    (fun m hm => by
      rw [zero_add, daySumRange 480 m (fun j hj => by omega)]
      have hmq : (m : ℚ) ≤ 240 := by exact_mod_cast hm
      linarith)
    (fun m hm => by omega)
    (by rw [zero_add, hd1])
    (fun m hm => by
      rw [haddr]
      constructor
      · rw [zero_add, hd1, daySumRange 780 m (fun j hj => by omega)]
        have hmq : (m : ℚ) < 288 := by exact_mod_cast hm
        linarith
      · omega)
    (by
      left
      rw [haddr, zero_add, hd1, hd2]
      norm_num)
    (by norm_num)
  rw [haddr] at h
  unfold fwdSim
  rw [h]
  simp only [FwdState.mk.injEq]
  refine ⟨by norm_num, by decide, ?_, by norm_num⟩
  rw [zero_add, hd1, hd2]
  norm_num

theorem fwdSim_1410_0_90 : fwdSim 1410 0 90 = ⟨1489, 79, 632 / 7, none⟩ := by
  have hn : ∀ m : Nat, m ≤ 79 →
      effSegLen 1410 m = (m : ℚ) * FATOR_HORA_NOTURNA := fun m hm =>
    nightSumRange 1410 m (fun j hj => by omega)
  have h := fwdLoop_noinsert 0 90 79 1410 0 0 none 2002
    (Or.inr (by norm_num))
    (fun m hm => by
      constructor
      · rw [zero_add, hn m (by omega), FATOR_eq]
        have hmq : (m : ℚ) ≤ 78 := by exact_mod_cast (by omega : m ≤ 78)
        have := mul_le_mul_of_nonneg_right hmq (by norm_num : (0:ℚ) ≤ 8 / 7)
        linarith
      · omega)
    (by
      left
      rw [zero_add, hn 79 (le_refl 79), FATOR_eq]
      norm_num)
    (by norm_num)
  unfold fwdSim
  rw [h]
  simp only [FwdState.mk.injEq]
  refine ⟨by norm_num, by norm_num, ?_, trivial⟩
  rw [zero_add, hn 79 (le_refl 79), FATOR_eq]
  norm_num

theorem fwdSim_1320_0_90 : fwdSim 1320 0 90 = ⟨1399, 79, 632 / 7, none⟩ := by
  have hn : ∀ m : Nat, m ≤ 79 →
      effSegLen 1320 m = (m : ℚ) * FATOR_HORA_NOTURNA := fun m hm =>
    nightSumRange 1320 m (fun j hj => by omega)
  have h := fwdLoop_noinsert 0 90 79 1320 0 0 none 2002
    (Or.inr (by norm_num))
    (fun m hm => by
      constructor
      · rw [zero_add, hn m (by omega), FATOR_eq]
        have hmq : (m : ℚ) ≤ 78 := by exact_mod_cast (by omega : m ≤ 78)
        have := mul_le_mul_of_nonneg_right hmq (by norm_num : (0:ℚ) ≤ 8 / 7)
        linarith
      · omega)
    (by
      left
      rw [zero_add, hn 79 (le_refl 79), FATOR_eq]
      norm_num)
    (by norm_num)
  unfold fwdSim
  rw [h]
  simp only [FwdState.mk.injEq]
  refine ⟨by norm_num, by norm_num, ?_, trivial⟩
  rw [zero_add, hn 79 (le_refl 79), FATOR_eq]
  norm_num

theorem effSegLen_480_2001 : effSegLen 480 2001 = 2061 := by
  have e1 := effSegLen_append 480 840 1161
  have e2 := effSegLen_append 1320 420 741
  norm_num at e1 e2
  have v1 : effSegLen 480 840 = 840 := by
    rw [daySumRange 480 840 (fun j hj => by omega)]
    norm_num
  have v2 : effSegLen 1320 420 = (420 : ℚ) * FATOR_HORA_NOTURNA := by
    rw [nightSumRange 1320 420 (fun j hj => by omega)]
    norm_num
  have v3 : effSegLen 1740 741 = 741 := by
    rw [daySumRange 1740 741 (fun j hj => by omega)]
    norm_num
  rw [e1, e2, v1, v2, v3, FATOR_eq]
  norm_num

theorem fwdSim_480_0_3000 : fwdSim 480 0 3000 = ⟨2481, 2001, 2061, none⟩ := by
  have h := fwdLoop_noinsert 0 3000 2001 480 0 0 none 2002
    (Or.inr (by norm_num))
    (fun m hm => by
      constructor
      · rw [zero_add]
        have h1 : effSegLen 480 m ≤ (m : ℚ) * FATOR_HORA_NOTURNA :=
          effSegLen_le 480 m
        have hmq : (m : ℚ) ≤ 2000 := by exact_mod_cast (by omega : m ≤ 2000)
        rw [FATOR_eq] at h1
        have := mul_le_mul_of_nonneg_right hmq (by norm_num : (0:ℚ) ≤ 8 / 7)
        linarith
      · omega)
    (Or.inr (by omega))
    (by norm_num)
  unfold fwdSim
  rw [h]
  simp only [FwdState.mk.injEq]
  refine ⟨by norm_num, by norm_num, ?_, trivial⟩
  rw [zero_add, effSegLen_480_2001]

theorem fwdSim_480_0_561 : fwdSim 480 0 561 = ⟨1041, 561, 561, none⟩ := by
  have h := fwdLoop_noinsert 0 561 561 480 0 0 none 2002
    (Or.inr (by norm_num))
    (fun m hm => by
      constructor
      · rw [zero_add, daySumRange 480 m (fun j hj => by omega)]
        exact_mod_cast hm
      · omega)
    (by
      left
      rw [zero_add, daySumRange 480 561 (fun j hj => by omega)]
      norm_num)
    (by norm_num)
  unfold fwdSim
  rw [h]
  simp only [FwdState.mk.injEq]
  refine ⟨by norm_num, by norm_num, ?_, trivial⟩
  rw [zero_add, daySumRange 480 561 (fun j hj => by omega)]
  norm_num

theorem fwdSim_nonpos (e : Nat) (i : ℤ) (T : ℚ) (hT : T ≤ 0) :
    fwdSim e i T = ⟨e, 0, 0, none⟩ := by
  unfold fwdSim
  rw [fwdLoop]
  dsimp only
  rw [if_neg (not_lt.mpr hT)]

end CLT

namespace CLT

/-- Faithfulness of the fuel parameter of the forward model: the final state
always satisfies the Python loop's own exit condition (target reached, or
safety bound exceeded), so the chosen fuel never truncates the simulation. -/
theorem fwdSim_faithful (e : Nat) (i : ℤ) (T : ℚ) :
    T ≤ (fwdSim e i T).eff ∨ 2000 < (fwdSim e i T).real := by
  unfold fwdSim
  exact fwdLoop_exit_cond i T 2002 ⟨e, 0, 0, none⟩
    (by show 2001 ≤ 2002 + 0; norm_num)

/-- Faithfulness of the fuel parameter of the reverse model: the walk always
ends at or past the fixed exit instant. -/
theorem revSim_faithful (entrada saida : Clock) (i : ℤ)
    (hS : ValidClock saida) :
    revS entrada saida ≤
      (revLoop (revS entrada saida) i 3000 ⟨entrada.abs, 0, 0, false⟩).current := by
  apply revLoop_exit_cond
  show revS entrada saida ≤ entrada.abs + 3000
  have := revS_le entrada saida hS
  omega

/-- C1: the spec requires that an exit (or break-end) clock time numerically
earlier than the entry time carries an explicit next-day flag; for entry
23:30, break 0, target 90 the exit clock (00:49) is numerically earlier than
the entry clock (23:30), yet the code returns the bare string "00:49": the
comparison `saida_dt < t_entrada` is made on anchored datetimes, which the
loop only ever advances, so the flag branch is dead code and the rollover is
silently dropped on every input. -/
theorem C1_rollover_flag_missing :
    (fwdSim (Clock.mk 23 30).abs 0 90).current % 1440 < (Clock.mk 23 30).abs
    ∧ (calculate_exit_time ⟨23, 30⟩ 0 90).saida = "00:49"
    ∧ (∀ (entrada : Clock) (i : ℤ) (T : ℚ),
        (calculate_exit_time entrada i T).saida =
          clockStr ((fwdSim entrada.abs i T).current)) := by
  have habs : (Clock.mk 23 30).abs = 1410 := rfl
  refine ⟨?_, ?_, calculate_saida_eq⟩
  · rw [habs, fwdSim_1410_0_90]
    show 1489 % 1440 < 1410
    norm_num
  · rw [calculate_saida_eq, habs, fwdSim_1410_0_90]
    exact clockStr_1489

/-- C2: for entry 08:00, break 60 and target 528 the forward simulator
returns exit 17:48, break window 12:00-13:00, net duration 8h48m, and the
final effective accumulator is exactly 528. -/
theorem C2_concrete_day_shift :
    calculate_exit_time ⟨8, 0⟩ 60 528 =
      ⟨"17:48", "12:00 - 13:00 (01h 00m)", "08h 48m"⟩
    ∧ (fwdSim 480 60 528).eff = 528 := by
  have habs : (Clock.mk 8 0).abs = 480 := rfl
  constructor
  · have hs : (calculate_exit_time ⟨8, 0⟩ 60 528).saida = "17:48" := by
      rw [calculate_saida_eq, habs, fwdSim_480_60_528]
      exact clockStr_1068
    have hi : (calculate_exit_time ⟨8, 0⟩ 60 528).intervalo =
        "12:00 - 13:00 (01h 00m)" := by
      rw [calculate_intervalo_some ⟨8, 0⟩ 60 528 720
        (by rw [habs, fwdSim_480_60_528])]
      rw [cast_int_60, format_timedelta_60, clockStr_720]
      rw [show 720 + (60 : ℤ).toNat = 780 by decide, clockStr_780]
      rfl
    have hj : (calculate_exit_time ⟨8, 0⟩ 60 528).jornada = "08h 48m" := by
      rw [calculate_jornada_eq]
      exact format_timedelta_528
    calc calculate_exit_time ⟨8, 0⟩ 60 528
        = ⟨(calculate_exit_time ⟨8, 0⟩ 60 528).saida,
            (calculate_exit_time ⟨8, 0⟩ 60 528).intervalo,
            (calculate_exit_time ⟨8, 0⟩ 60 528).jornada⟩ := rfl
      _ = ⟨"17:48", "12:00 - 13:00 (01h 00m)", "08h 48m"⟩ := by
          rw [hs, hi, hj]
  · rw [fwdSim_480_60_528]

/-- C4: the forward simulator always reports the caller's requested target
as the realized net duration, not the loop's final accumulator; for entry
22:00 and target 90 the final accumulator strictly overshoots 90, yet the
reported net duration is still the formatted target. -/
theorem C4_net_reports_target :
    (∀ (entrada : Clock) (i : ℤ) (T : ℚ),
        (calculate_exit_time entrada i T).jornada = format_timedelta T)
    ∧ (90 : ℚ) < (fwdSim (Clock.mk 22 0).abs 0 90).eff
    ∧ (calculate_exit_time ⟨22, 0⟩ 0 90).jornada = format_timedelta 90 := by
  refine ⟨fun entrada i T => calculate_jornada_eq entrada i T, ?_,
    calculate_jornada_eq ⟨22, 0⟩ 0 90⟩
  rw [show (Clock.mk 22 0).abs = 1320 from rfl, fwdSim_1320_0_90]
  show (90 : ℚ) < 632 / 7
  norm_num

/-- C9: with entry and break fixed, the forward simulator's final virtual
clock position is monotone in the target net duration. -/
theorem C9_exit_monotone (entrada : Clock) (i : ℤ) (T1 T2 : ℚ)
    (h : T1 ≤ T2) :
    (fwdSim entrada.abs i T1).current ≤ (fwdSim entrada.abs i T2).current := by
  unfold fwdSim
  exact fwdLoop_mono_target i h 2002 ⟨entrada.abs, 0, 0, none⟩

/-- Witness for C9 at entry 08:00, break 0, targets 100 and 200. -/
theorem C9_exit_monotone_witness :
    (100 : ℚ) ≤ 200 ∧
      (fwdSim (Clock.mk 8 0).abs 0 100).current ≤
        (fwdSim (Clock.mk 8 0).abs 0 200).current :=
  ⟨by norm_num, C9_exit_monotone ⟨8, 0⟩ 0 100 200 (by norm_num)⟩

end CLT

namespace CLT

/-- C3: the forward simulator's break rule.  A recorded break start is never
changed afterwards (single insertion); a break is recorded if and only if
the break length is positive and the target has not yet been met at the
first instant the effective accumulator reaches 240; when recorded, the
break starts exactly at that first instant (`entry + brkIdx`), which indeed
is the first walk length whose effective accumulation reaches 240; and if
the target is reached before the accumulator reaches 240, no break is ever
inserted and the result's break window is absent. -/
theorem C3_break_insertion_rule (entrada : Clock) (i : ℤ) (T : ℚ) :
    (∀ (fuel : Nat) (s : FwdState) (b : Nat), s.intervalo_start = some b →
        (fwdLoop i T fuel s).intervalo_start = some b)
    ∧ ((fwdSim entrada.abs i T).intervalo_start ≠ none ↔
        0 < i ∧ effSegLen entrada.abs (brkIdx entrada.abs) < T)
    ∧ (∀ b, (fwdSim entrada.abs i T).intervalo_start = some b →
        b = entrada.abs + brkIdx entrada.abs)
    ∧ 240 ≤ effSegLen entrada.abs (brkIdx entrada.abs)
    ∧ (∀ j, j < brkIdx entrada.abs → effSegLen entrada.abs j < 240)
    ∧ (T ≤ effSegLen entrada.abs (brkIdx entrada.abs) →
        (fwdSim entrada.abs i T).intervalo_start = none) := by
  have hKspec := brkIdx_spec entrada.abs
  have hKmin := brkIdx_min entrada.abs
  have hK240 := brkIdx_le_240 entrada.abs
  have hnone : T ≤ effSegLen entrada.abs (brkIdx entrada.abs) →
      (fwdSim entrada.abs i T).intervalo_start = none := by
    intro hT
    unfold fwdSim
    apply fwdLoop_no_insert_small
    intro m hm
    rw [zero_add] at hm ⊢
    have hmK : m < brkIdx entrada.abs := by
      by_contra hge
      push_neg at hge
      have := effSegLen_mono entrada.abs hge
      linarith
    exact hKmin m hmK
  have hnonei : ¬0 < i → (fwdSim entrada.abs i T).intervalo_start = none := by
    intro hi
    unfold fwdSim
    exact fwdLoop_none_preserved i T hi 2002 ⟨entrada.abs, 0, 0, none⟩ rfl
  have hreach : 0 < i → effSegLen entrada.abs (brkIdx entrada.abs) < T →
      (fwdSim entrada.abs i T).intervalo_start =
        some (entrada.abs + brkIdx entrada.abs) := by
    intro hi hT
    unfold fwdSim
    apply fwdLoop_reach_insert i T (brkIdx entrada.abs) entrada.abs 0 0 2002 hi
    · intro m hm
      rw [zero_add]
      exact hKmin m hm
    · intro m hm
      rw [zero_add]
      exact lt_of_le_of_lt (effSegLen_mono entrada.abs hm) hT
    · intro m hm
      omega
    · rw [zero_add]
      exact hKspec
    · omega
  refine ⟨fwdLoop_some_preserved i T, ?_, ?_, hKspec, hKmin, hnone⟩
  · constructor
    · intro hne
      by_cases hi : 0 < i
      · by_cases hT : effSegLen entrada.abs (brkIdx entrada.abs) < T
        · exact ⟨hi, hT⟩
        · exact absurd (hnone (not_lt.mp hT)) hne
      · exact absurd (hnonei hi) hne
    · rintro ⟨hi, hT⟩
      rw [hreach hi hT]
      simp
  · intro b hb
    by_cases hi : 0 < i
    · by_cases hT : effSegLen entrada.abs (brkIdx entrada.abs) < T
      · have h2 := (hb.symm.trans (hreach hi hT))
        exact Option.some.inj h2
      · rw [hnone (not_lt.mp hT)] at hb
        cases hb
    · rw [hnonei hi] at hb
      cases hb

/-- Witness for C3 at entry 08:00, break 60, target 528: a break is
recorded, and the theorem places it at `entry + brkIdx entry`. -/
theorem C3_break_insertion_rule_witness :
    (fwdSim (Clock.mk 8 0).abs 60 528).intervalo_start = some 720 ∧
      720 = (Clock.mk 8 0).abs + brkIdx (Clock.mk 8 0).abs := by
  have h1 : (fwdSim (Clock.mk 8 0).abs 60 528).intervalo_start = some 720 := by
    rw [show (Clock.mk 8 0).abs = 480 from rfl, fwdSim_480_60_528]
  exact ⟨h1, (C3_break_insertion_rule ⟨8, 0⟩ 60 528).2.2.1 720 h1⟩

/-- C5: in the reverse simulator the break is inserted once the real-minute
counter reaches 240, and for entry 08:00, fixed exit 14:00, break 60 the
result is exactly 300 effective minutes.  The general conjunct gives the
closed form: effective minutes of the 240 real minutes before the break plus
those of the minutes from the break end to the fixed exit. -/
theorem C5_reverse_real_threshold :
    calculate_short_friday_net_minutes ⟨8, 0⟩ ⟨14, 0⟩ 60 = 300
    ∧ (∀ (entrada saida : Clock) (i : ℤ), ValidClock saida → 0 < i →
        entrada.abs + 240 < revS entrada saida →
        calculate_short_friday_net_minutes entrada saida i =
          effSegLen entrada.abs 240 +
            effSegLen (entrada.abs + 240 + i.toNat)
              (revS entrada saida - (entrada.abs + 240 + i.toNat))) := by
  constructor
  · rw [rev_insert_formula ⟨8, 0⟩ ⟨14, 0⟩ 60 (by decide) (by norm_num)
      (by decide)]
    show effSegLen 480 240 + effSegLen 780 60 = 300
    rw [daySumRange 480 240 (fun j hj => by omega),
      daySumRange 780 60 (fun j hj => by omega)]
    norm_num
  · exact fun entrada saida i hS hi h => rev_insert_formula entrada saida i hS hi h

/-- Witness for C5's general conjunct: an overnight shift 23:00 to 07:00
with a 150-minute break; the break is placed 240 real minutes after entry
(02:00-04:30), not at the effective-minute threshold. -/
theorem C5_reverse_real_threshold_witness :
    ValidClock (Clock.mk 7 0) ∧ (0 : ℤ) < 150 ∧
      (Clock.mk 23 0).abs + 240 < revS ⟨23, 0⟩ ⟨7, 0⟩ ∧
      calculate_short_friday_net_minutes ⟨23, 0⟩ ⟨7, 0⟩ 150 =
        effSegLen (Clock.mk 23 0).abs 240 +
          effSegLen ((Clock.mk 23 0).abs + 240 + (150 : ℤ).toNat)
            (revS ⟨23, 0⟩ ⟨7, 0⟩ - ((Clock.mk 23 0).abs + 240 + (150 : ℤ).toNat)) :=
  ⟨by decide, by norm_num, by decide,
    C5_reverse_real_threshold.2 ⟨23, 0⟩ ⟨7, 0⟩ 150 (by decide) (by norm_num)
      (by decide)⟩

/-- C10: when the reverse simulator's break starts strictly before the fixed
exit but its end reaches or passes it, the returned total is exactly the
effective minutes accumulated before the break start; no minute between the
break start and the fixed exit contributes. -/
theorem C10_break_swallows_tail (entrada saida : Clock) (i : ℤ)
    (hS : ValidClock saida) (hi : 0 < i)
    (h1 : entrada.abs + 240 < revS entrada saida)
    (h2 : revS entrada saida ≤ entrada.abs + 240 + i.toNat) :
    calculate_short_friday_net_minutes entrada saida i =
      effSegLen entrada.abs 240 := by
  rw [rev_insert_formula entrada saida i hS hi h1]
  have hz : revS entrada saida - (entrada.abs + 240 + i.toNat) = 0 := by omega
  rw [hz, effSegLen_zero, add_zero]

/-- Witness for C10: entry 08:00, fixed exit 12:30, break 60; the break
starts at 12:00 and its end 13:00 passes the exit. -/
theorem C10_break_swallows_tail_witness :
    ValidClock (Clock.mk 12 30) ∧ (0 : ℤ) < 60 ∧
      (Clock.mk 8 0).abs + 240 < revS ⟨8, 0⟩ ⟨12, 30⟩ ∧
      revS ⟨8, 0⟩ ⟨12, 30⟩ ≤ (Clock.mk 8 0).abs + 240 + (60 : ℤ).toNat ∧
      calculate_short_friday_net_minutes ⟨8, 0⟩ ⟨12, 30⟩ 60 =
        effSegLen (Clock.mk 8 0).abs 240 :=
  ⟨by decide, by norm_num, by decide, by decide,
    C10_break_swallows_tail ⟨8, 0⟩ ⟨12, 30⟩ 60 (by decide) (by norm_num)
      (by decide) (by decide)⟩

end CLT

namespace CLT

/-- Counterexample to C6: the core performs no input validation.  For the
out-of-domain target -10 the forward simulator returns a fully formed
ordinary result (exit = entry, zero minutes simulated) instead of an
input-validation error, and for the negative break -30 the reverse simulator
likewise returns a computed total (360 effective minutes). -/
theorem C6_counterexample :
    calculate_exit_time ⟨8, 0⟩ 60 (-10) = ⟨"08:00", "01h 00m", "-1h 50m"⟩
    ∧ calculate_short_friday_net_minutes ⟨8, 0⟩ ⟨14, 0⟩ (-30) = 360 := by
  have habs : (Clock.mk 8 0).abs = 480 := rfl
  constructor
  · have hsim : fwdSim (Clock.mk 8 0).abs 60 (-10) = ⟨480, 0, 0, none⟩ := by
      rw [habs]
      exact fwdSim_nonpos 480 60 (-10) (by norm_num)
    have hs : (calculate_exit_time ⟨8, 0⟩ 60 (-10)).saida = "08:00" := by
      rw [calculate_saida_eq, hsim]
      exact clockStr_480
    have hi : (calculate_exit_time ⟨8, 0⟩ 60 (-10)).intervalo = "01h 00m" := by
      rw [calculate_intervalo_none ⟨8, 0⟩ 60 (-10) (by rw [hsim])]
      rw [cast_int_60]
      exact format_timedelta_60
    have hj : (calculate_exit_time ⟨8, 0⟩ 60 (-10)).jornada = "-1h 50m" := by
      rw [calculate_jornada_eq]
      exact format_timedelta_neg10
    calc calculate_exit_time ⟨8, 0⟩ 60 (-10)
        = ⟨(calculate_exit_time ⟨8, 0⟩ 60 (-10)).saida,
            (calculate_exit_time ⟨8, 0⟩ 60 (-10)).intervalo,
            (calculate_exit_time ⟨8, 0⟩ 60 (-10)).jornada⟩ := rfl
      _ = ⟨"08:00", "01h 00m", "-1h 50m"⟩ := by rw [hs, hi, hj]
  · rw [rev_noinsert ⟨8, 0⟩ ⟨14, 0⟩ (-30) (by decide) (by decide) (by norm_num)]
    show effSegLen 480 360 = 360
    rw [daySumRange 480 360 (fun j hj => by omega)]
    norm_num

/-- Amended C6: neither simulator validates its inputs.  A non-positive
target makes the forward simulator return immediately with exit = entry,
zero simulated minutes and no break, as a normal result; a non-positive
break duration is silently treated as no break by the reverse simulator,
which still returns the full walk's effective total. -/
theorem C6_no_input_validation :
    (∀ (entrada : Clock) (i : ℤ) (T : ℚ), T ≤ 0 →
        fwdSim entrada.abs i T = ⟨entrada.abs, 0, 0, none⟩ ∧
        (calculate_exit_time entrada i T).saida = clockStr entrada.abs)
    ∧ (∀ (entrada saida : Clock) (i : ℤ), ValidClock entrada →
        ValidClock saida → i ≤ 0 →
        calculate_short_friday_net_minutes entrada saida i =
          effSegLen entrada.abs (revS entrada saida - entrada.abs)) := by
  constructor
  · intro entrada i T hT
    have hsim := fwdSim_nonpos entrada.abs i T hT
    refine ⟨hsim, ?_⟩
    rw [calculate_saida_eq, hsim]
  · intro entrada saida i hE hS hi
    exact rev_noinsert entrada saida i hE hS (by omega)

/-- Witness for the amended C6 at target -10 and break -30. -/
theorem C6_no_input_validation_witness :
    ((-10 : ℚ) ≤ 0 ∧
      fwdSim (Clock.mk 8 0).abs 60 (-10) = ⟨(Clock.mk 8 0).abs, 0, 0, none⟩)
    ∧ (ValidClock (Clock.mk 8 0) ∧ ValidClock (Clock.mk 14 0) ∧
        (-30 : ℤ) ≤ 0 ∧
        calculate_short_friday_net_minutes ⟨8, 0⟩ ⟨14, 0⟩ (-30) =
          effSegLen (Clock.mk 8 0).abs
            (revS ⟨8, 0⟩ ⟨14, 0⟩ - (Clock.mk 8 0).abs)) :=
  ⟨⟨by norm_num, (C6_no_input_validation.1 ⟨8, 0⟩ 60 (-10) (by norm_num)).1⟩,
    by decide, by decide, by norm_num,
    C6_no_input_validation.2 ⟨8, 0⟩ ⟨14, 0⟩ (-30) (by decide) (by decide)
      (by norm_num)⟩

/-- Counterexample to C7: for entry 08:00, break 0, target 3000 the safety
bound is hit (2001 real minutes simulated, accumulator 2061 < 3000), yet the
returned value is an ordinary untagged result whose exit string "17:21" is
literally the exit string of a normal run (entry 08:00, target 561) and
whose net field still reports the unreached target. -/
theorem C7_counterexample :
    (fwdSim 480 0 3000).eff < 3000 ∧ (fwdSim 480 0 3000).real = 2001
    ∧ calculate_exit_time ⟨8, 0⟩ 0 3000 = ⟨"17:21", "00h 00m", "50h 00m"⟩
    ∧ (calculate_exit_time ⟨8, 0⟩ 0 561).saida = "17:21" := by
  have habs : (Clock.mk 8 0).abs = 480 := rfl
  refine ⟨?_, ?_, ?_, ?_⟩
  · rw [fwdSim_480_0_3000]
    show (2061 : ℚ) < 3000
    norm_num
  · rw [fwdSim_480_0_3000]
  · have hs : (calculate_exit_time ⟨8, 0⟩ 0 3000).saida = "17:21" := by
      rw [calculate_saida_eq, habs, fwdSim_480_0_3000]
      exact clockStr_2481
    have hi : (calculate_exit_time ⟨8, 0⟩ 0 3000).intervalo = "00h 00m" := by
      rw [calculate_intervalo_none ⟨8, 0⟩ 0 3000
        (by rw [habs, fwdSim_480_0_3000])]
      rw [cast_int_0]
      exact format_timedelta_0
    have hj : (calculate_exit_time ⟨8, 0⟩ 0 3000).jornada = "50h 00m" := by
      rw [calculate_jornada_eq]
      exact format_timedelta_3000
    calc calculate_exit_time ⟨8, 0⟩ 0 3000
        = ⟨(calculate_exit_time ⟨8, 0⟩ 0 3000).saida,
            (calculate_exit_time ⟨8, 0⟩ 0 3000).intervalo,
            (calculate_exit_time ⟨8, 0⟩ 0 3000).jornada⟩ := rfl
      _ = ⟨"17:21", "00h 00m", "50h 00m"⟩ := by rw [hs, hi, hj]
  · rw [calculate_saida_eq, habs, fwdSim_480_0_561]
    exact clockStr_1041

/-- Amended C7: when the safety bound truncates the simulation the only
trace is the internal real-minute counter exceeding 2000; the returned
result is built exactly like a normal one (plain exit clock string, net
field reporting the formatted target), with no degenerate tag of any kind. -/
theorem C7_cap_untagged (entrada : Clock) (i : ℤ) (T : ℚ) :
    ((fwdSim entrada.abs i T).eff < T → 2000 < (fwdSim entrada.abs i T).real)
    ∧ (calculate_exit_time entrada i T).saida =
        clockStr ((fwdSim entrada.abs i T).current)
    ∧ (calculate_exit_time entrada i T).jornada = format_timedelta T := by
  refine ⟨?_, calculate_saida_eq entrada i T, calculate_jornada_eq entrada i T⟩
  intro heff
  rcases fwdSim_faithful entrada.abs i T with h1 | h2
  · exact absurd heff (not_lt.mpr h1)
  · exact h2

/-- Witness for the amended C7 at entry 08:00, break 0, target 3000. -/
theorem C7_cap_untagged_witness :
    (fwdSim (Clock.mk 8 0).abs 0 3000).eff < 3000 ∧
      2000 < (fwdSim (Clock.mk 8 0).abs 0 3000).real := by
  have h1 : (fwdSim (Clock.mk 8 0).abs 0 3000).eff < 3000 := by
    rw [show (Clock.mk 8 0).abs = 480 from rfl, fwdSim_480_0_3000]
    show (2061 : ℚ) < 3000
    norm_num
  exact ⟨h1, (C7_cap_untagged ⟨8, 0⟩ 0 3000).1 h1⟩

end CLT

namespace CLT

/-- C8: round-trip consistency.  For a positive target whose whole shift
(no break) lies in day hours, feeding the forward simulator's exit clock
back into the reverse simulator with break 0 recovers the target up to
sub-minute rounding: the reverse total is the integer ceiling of the target,
which differs from the target by less than one minute. -/
theorem C8_round_trip (entrada : Clock) (T : ℚ) (hE : ValidClock entrada)
    (hT : 0 < T)
    (hday : ∀ j, j < (⌈T⌉).toNat →
      is_night_time (hourOf (entrada.abs + j)) = false) :
    calculate_short_friday_net_minutes entrada
        (clockOfAbs ((fwdSim entrada.abs 0 T).current)) 0 =
      (((⌈T⌉).toNat : Nat) : ℚ)
    ∧ |(((⌈T⌉).toNat : Nat) : ℚ) - T| < 1 := by
  have hceil : (0 : ℤ) < ⌈T⌉ := Int.ceil_pos.mpr hT
  have hN1 : 1 ≤ (⌈T⌉).toNat := by omega
  have hNq : (((⌈T⌉).toNat : Nat) : ℚ) = ((⌈T⌉ : ℤ) : ℚ) := by
    have : (((⌈T⌉).toNat : Nat) : ℤ) = ⌈T⌉ := Int.toNat_of_nonneg (by omega)
    exact_mod_cast this
  have heLT : entrada.abs < 1440 := abs_lt_1440 hE
  have h00 := day_hour_inv (hday 0 (by omega))
  have he0 : entrada.abs + 0 = entrada.abs := by omega
  rw [he0] at h00
  have he300 : 300 ≤ entrada.abs ∧ entrada.abs < 1320 := by omega
  have heN : entrada.abs + (⌈T⌉).toNat ≤ 1320 := by
    by_contra hgt
    push_neg at hgt
    have hj : 1320 - entrada.abs < (⌈T⌉).toNat := by omega
    have hinv := day_hour_inv (hday (1320 - entrada.abs) hj)
    have harr : entrada.abs + (1320 - entrada.abs) = 1320 := by omega
    rw [harr] at hinv
    omega
  have hfwd := fwdLoop_noinsert 0 T ((⌈T⌉).toNat) entrada.abs 0 0 none 2002
    (Or.inr (by norm_num))
    (fun m hm => by
      constructor
      · rw [zero_add, daySum entrada.abs m (fun j hj => hday j (by omega))]
        have hmz : (m : ℤ) < ⌈T⌉ := by omega
        have := Int.lt_ceil.mp hmz
        exact_mod_cast this
      · omega)
    (by
      left
      rw [zero_add, daySum entrada.abs ((⌈T⌉).toNat) (fun j hj => hday j hj)]
      rw [hNq]
      exact Int.le_ceil T)
    (by omega)
  have hcur : (fwdSim entrada.abs 0 T).current = entrada.abs + (⌈T⌉).toNat := by
    unfold fwdSim
    rw [hfwd]
  have habs2 : (clockOfAbs (entrada.abs + (⌈T⌉).toNat)).abs =
      entrada.abs + (⌈T⌉).toNat := clockOfAbs_abs (by omega)
  have hrevS : revS entrada (clockOfAbs (entrada.abs + (⌈T⌉).toNat)) =
      entrada.abs + (⌈T⌉).toNat := by
    unfold revS
    rw [habs2]
    rw [if_neg (by omega : ¬entrada.abs + (⌈T⌉).toNat ≤ entrada.abs)]
  have hrev := rev_noinsert entrada (clockOfAbs (entrada.abs + (⌈T⌉).toNat)) 0
    hE (clockOfAbs_valid _) (by norm_num)
  rw [hcur, hrev, hrevS]
  constructor
  · have hsub : entrada.abs + (⌈T⌉).toNat - entrada.abs = (⌈T⌉).toNat := by
      omega
    rw [hsub, daySum entrada.abs ((⌈T⌉).toNat) (fun j hj => hday j hj)]
  · have hTle : T ≤ (((⌈T⌉).toNat : Nat) : ℚ) := by
      rw [hNq]
      exact Int.le_ceil T
    have hlt : (((⌈T⌉).toNat : Nat) : ℚ) < T + 1 := by
      rw [hNq]
      exact Int.ceil_lt_add_one T
    rw [abs_of_nonneg (by linarith)]
    linarith

/-- Witness for C8 at entry 08:00 and target 100 (a 100-minute day shift). -/
theorem C8_round_trip_witness :
    ValidClock (Clock.mk 8 0) ∧ (0 : ℚ) < 100 ∧
      (∀ j, j < (⌈(100 : ℚ)⌉).toNat →
        is_night_time (hourOf ((Clock.mk 8 0).abs + j)) = false) ∧
      calculate_short_friday_net_minutes ⟨8, 0⟩
          (clockOfAbs ((fwdSim (Clock.mk 8 0).abs 0 100).current)) 0 =
        (((⌈(100 : ℚ)⌉).toNat : Nat) : ℚ) := by
  have hceil : (⌈(100 : ℚ)⌉ : ℤ) = 100 := by norm_num
  have hday : ∀ j, j < (⌈(100 : ℚ)⌉).toNat →
      is_night_time (hourOf ((Clock.mk 8 0).abs + j)) = false := by
    intro j hj
    rw [hceil] at hj
    have habs : (Clock.mk 8 0).abs = 480 := rfl
    rw [habs]
    apply day_hour
    · omega
    · omega
  exact ⟨by decide, by norm_num, hday,
    (C8_round_trip ⟨8, 0⟩ 100 (by decide) (by norm_num) hday).1⟩

end CLT
